import Mathlib

/-!
# Verification of the librephotos photo-enrichment pipeline (api/models/photo.py)

This file gives a shallow embedding of the enrichment stages of the `Photo`
model and proves/refutes the frozen claims about them.

Modelling conventions:
* Django model instances become Lean structures; the entity store (Django ORM)
  becomes explicit lists of rows passed in and out of each stage.
* External inference / network calls (reverse geocoding, face detection and
  encoding, scene classification, clip embedding, timezone lookup, timestamp
  parsing) are passed in as outcome parameters: either a `throw` constructor
  (a Python exception at the call site) or the returned value.
* Python floats (GPS coordinates) are modelled as `Rat`; timestamps as an
  integer count of minutes (UTC wall clock), with the calendar date obtained
  by flooring division by 1440.  `datetime.astimezone(tz)` followed by
  `.replace(tzinfo=utc)` shifts the represented instant by the zone offset,
  so it is modelled as adding the offset (in minutes) to the timestamp.
* Python truthiness is modelled explicitly: `None` and empty strings / lists /
  dicts and the float `0.0` are falsy.
-/

namespace LibrePhotos

/-- Python truthiness of an optional float (`None` and `0.0` are falsy). -/
def truthyCoord : Option Rat → Bool
  | none => false
  | some v => v != 0

/-- Python truthiness of an optional string (`None` and `""` are falsy). -/
def truthyStr : Option String → Bool
  | none => false
  | some s => s != ""

/-- Python `str.isnumeric()`: nonempty and every character numeric. -/
def pyIsNumeric (s : String) : Bool :=
  s.length != 0 && s.toList.all Char.isDigit

/-- Django many-to-many `add`: a no-op when the member is already present. -/
def addMember (xs : List String) (h : String) : List String :=
  if h ∈ xs then xs else xs ++ [h]

/-- Django many-to-many `remove`: drops the relationship if present. -/
def removeMember (xs : List String) (h : String) : List String :=
  xs.filter (fun x => x != h)

/-- Update the first list element satisfying `p` (Django `get` + `save` on
a row found by a keyed query). -/
def updateFirst (p : α → Bool) (f : α → α) : List α → List α
  | [] => []
  | x :: xs => if p x then f x :: xs else x :: updateFirst p f xs

/-! ## Data model -/

/-- One entry of the mapbox `features` array.  `text` is the `"text"` key,
absent when the key is missing from the feature dict. -/
structure Feature where
  text : Option String
deriving DecidableEq

/-- The reverse-geocoding response dict.  `extra_keys` counts keys other than
`"features"` and `"search_text"`, so a response is the empty dict iff both
optional fields are `none` and `extra_keys = 0`. -/
structure MapboxRes where
  features : Option (List Feature)
  search_text : Option String
  extra_keys : Nat
deriving DecidableEq

/-- Number of keys of the response dict (for Python truthiness / `len`). -/
def MapboxRes.numKeys (r : MapboxRes) : Nat :=
  (if r.features.isSome then 1 else 0) +
    (if r.search_text.isSome then 1 else 0) + r.extra_keys

/-- Python truthiness of the stored `geolocation_json` dict. -/
def truthyGeo : Option MapboxRes → Bool
  | none => false
  | some r => r.numKeys != 0

/-- Result of `place365_instance.inference_places365`. -/
structure Places365Res where
  categories : List String
  attributes : List String
  environment : String
deriving DecidableEq

/-- A value of the `captions_json` dict. -/
inductive CapVal where
  | txt (s : String)
  | p365 (r : Places365Res)
deriving DecidableEq

/-- The mutable fields of a `Photo` row that the verified stages touch,
plus its identity (`image_hash`, `owner`). -/
structure Photo where
  image_hash : String
  owner : Nat
  exif_gps_lat : Option Rat
  exif_gps_lon : Option Rat
  exif_timestamp : Option Int
  geolocation_json : Option MapboxRes
  search_location : Option String
  search_captions : Option String
  captions_json : Option (List (String × CapVal))
  clip_embeddings : Option (List Rat)
  clip_embeddings_magnitude : Option Rat
  dominant_color : Option String
deriving DecidableEq

/-- An `AlbumPlace` row: keyed per owner by the feature label. -/
structure AlbumPlace where
  title : String
  owner : Nat
  photos : List String
  geolocation_level : Option Int
deriving DecidableEq

/-- An `AlbumDate` row: keyed per owner by a calendar date (`none` is the
unknown-date bucket). -/
structure AlbumDate where
  date : Option Int
  owner : Nat
  photos : List String
deriving DecidableEq

/-- A `Person` row.  The source creates persons with a name only
(`Person(name="unknown")`); there is no owner scoping on the row. -/
structure Person where
  id : Nat
  name : String
deriving DecidableEq

/-- A face bounding box `(top, right, bottom, left)` in pixel coordinates. -/
structure Box where
  top : Int
  right : Int
  bottom : Int
  left : Int
deriving DecidableEq

/-- A `Face` row. -/
structure Face where
  photo : String
  location_top : Int
  location_right : Int
  location_bottom : Int
  location_left : Int
  encoding : List Int
  person : Nat
deriving DecidableEq

/-! ## Caption stage (`_generate_captions`) -/

/-- Outcome of the places365 inference call. -/
inductive CaptionOutcome where
  | throw
  | ok (r : Places365Res)

/-- `_generate_captions`: builds a fresh caption dict `captions = {}`, runs
places365 inference, stores the result under the `"places365"` key, replaces
`captions_json` with the fresh dict and extends `search_captions`.  A thrown
exception is caught and leaves the photo unchanged (the inference call
precedes every mutation). -/
def generateCaptions (out : CaptionOutcome) (p : Photo) : Photo :=
  match out with
  | .throw => p
  | .ok r =>
    let captions : List (String × CapVal) := [("places365", CapVal.p365 r)]
    let p := { p with captions_json := some captions }
    let joined := String.intercalate " , " (r.categories ++ [r.environment])
    if truthyStr p.search_captions then
      { p with search_captions := some (p.search_captions.getD "" ++ " , " ++ joined) }
    else
      { p with search_captions := some joined }

/-! ## Embedding stage (`_generate_clip_embeddings`) -/

/-- Python truthiness of `clip_embeddings` (`None` and `[]` are falsy). -/
def truthyEmb : Option (List Rat) → Bool
  | none => false
  | some l => l != []

/-- Outcome of `semantic_search_instance.calculate_clip_embeddings`. -/
inductive EmbedOutcome where
  | throw
  | ok (vec : List Rat) (magnitude : Rat)

/-- `_generate_clip_embeddings`: skip when `clip_embeddings` is truthy,
otherwise store the computed vector and magnitude; exceptions are caught
and leave the photo unchanged. -/
def generateClipEmbeddings (out : EmbedOutcome) (p : Photo) : Photo :=
  if truthyEmb p.clip_embeddings then p
  else
    match out with
    | .throw => p
    | .ok v m => { p with clip_embeddings := some v, clip_embeddings_magnitude := some m }

/-! ## Dominant color stage (`_get_dominant_color`) -/

/-- Outcome of the PIL palette computation (resize, quantize, most frequent
palette entry); the resulting RGB triple is stored in the text field. -/
inductive ColorOutcome where
  | throw
  | ok (rgb : String)

/-- `_get_dominant_color`: skip if `dominant_color` is truthy; otherwise
compute and store, catching any exception. -/
def getDominantColor (out : ColorOutcome) (p : Photo) : Photo :=
  if truthyStr p.dominant_color then p
  else
    match out with
    | .throw => p
    | .ok rgb => { p with dominant_color := some rgb }

/-! ## Geolocation stage (`_geolocate_mapbox`) -/

/-- Outcome of `util.mapbox_reverse_geocode` (the call may throw, return
`None`, or return a dict). -/
inductive GeoOutcome where
  | throw
  | ok (res : Option MapboxRes)

/-- `_find_album_place`: the `AlbumPlace` rows whose members include this
photo (unscoped `filter(Q(photos__in=[self]))`). -/
def findAlbumPlaces (hash : String) (places : List AlbumPlace) : List AlbumPlace :=
  places.filter (fun a => hash ∈ a.photos)

/-- Key match for a per-owner place album. -/
def placeKeyed (title : String) (owner : Nat) (a : AlbumPlace) : Bool :=
  a.title == title && a.owner == owner

/-- Modelled from the spec: `api.models.album_place.get_album_place(title,
owner)` (module not in the sources) is the entity store's
get-or-create-by-key for the per-owner place album.  This function performs
one iteration of the add loop: get or create the `(title, owner)` album, set
`geolocation_level` only when the photo is not yet a member, then
`photos.add` and save. -/
def addPhotoToPlace (hash : String) (owner : Nat) (level : Int) (title : String)
    (places : List AlbumPlace) : List AlbumPlace :=
  if places.any (placeKeyed title owner) then
    updateFirst (placeKeyed title owner)
      (fun a =>
        let a := if hash ∈ a.photos then a else { a with geolocation_level := some level }
        { a with photos := addMember a.photos hash })
      places
  else
    places ++ [{ title := title, owner := owner, photos := addMember [] hash,
                 geolocation_level := some level }]

/-- The `for geolocation_level, feature in enumerate(...)` loop: `n` is the
feature count, `i` the current index; features without a `"text"` key or with
a purely numeric label are skipped, the rest are upserted with level
`n - i`. -/
def placeLoop (hash : String) (owner : Nat) (n : Nat) :
    Nat → List Feature → List AlbumPlace → List AlbumPlace
  | _, [], places => places
  | i, f :: fs, places =>
    let places :=
      match f.text with
      | none => places
      | some t => if pyIsNumeric t then places else addPhotoToPlace hash owner ((n : Int) - i) t places
    placeLoop hash owner n (i + 1) fs places

/-- `_geolocate_mapbox`.  `newLat`/`newLon` are the GPS tags read by the
metadata reader; `geocode` is the outcome of the reverse-geocoding call.
Returns the updated photo and place-album store. -/
def geolocateMapbox (newLat newLon : Option Rat) (geocode : GeoOutcome)
    (p : Photo) (places : List AlbumPlace) : Photo × List AlbumPlace :=
  let hash := p.image_hash
  let owner := p.owner
  let old_gps_lat := p.exif_gps_lat
  let old_gps_lon := p.exif_gps_lon
  let old_album_places := findAlbumPlaces hash places
  if !truthyCoord newLat || !truthyCoord newLon then (p, places)
  else
    let nlat := newLat.getD 0
    let nlon := newLon.getD 0
    if old_gps_lat == some nlat && old_gps_lon == some nlon
        && old_album_places.length != 0 && truthyGeo p.geolocation_json then
      (p, places)
    else
      let p := { p with exif_gps_lon := some nlon, exif_gps_lat := some nlat }
      match geocode with
      | .throw => (p, places)
      | .ok none => (p, places)
      | .ok (some r) =>
        if r.numKeys == 0 then (p, places)
        else if r.features.isNone then (p, places)
        else
          let p := { p with geolocation_json := some r }
          let p :=
            match r.search_text with
            | some st =>
              if truthyStr p.search_location then
                { p with search_location := some (p.search_location.getD "" ++ " " ++ st) }
              else
                { p with search_location := some st }
            | none => p
          let places := places.map (fun a =>
            if hash ∈ a.photos then
              { a with photos := removeMember a.photos hash }
            else a)
          let fs := r.features.getD []
          (p, placeLoop hash owner fs.length 0 fs places)

/-! ## Timestamp stage (`_extract_date_time_from_exif`) -/

/-- External inputs of the timestamp stage: the two metadata tags read by
`get_metadata`, the `datetime.strptime` parse (in minutes; `none` models a
parse exception), and the timezone lookup (`TimezoneFinder.timezone_at`
composed with the zone's UTC offset in minutes; `none` models no zone
found). -/
structure DateEnv where
  exifStr : Option String
  exifVideoStr : Option String
  parse : String → Option Int
  tzAt : Rat → Rat → Option Int

/-- Calendar date (day index) of a timestamp in minutes: `datetime.date()`. -/
def dateOf (ts : Int) : Int := Int.fdiv ts 1440

/-- `_try_getting_timezone_from_geolocation`: when both coordinates are
truthy and a timezone is found, `astimezone` + `replace(tzinfo=utc)` shifts
the instant by the zone offset; otherwise the timestamp is returned
unchanged. -/
def tryGettingTimezoneFromGeolocation (env : DateEnv) (p : Photo) (ts : Int) : Int :=
  if truthyCoord p.exif_gps_lon && truthyCoord p.exif_gps_lat then
    match env.tzAt (p.exif_gps_lon.getD 0) (p.exif_gps_lat.getD 0) with
    | some off => ts + off
    | none => ts
  else ts

/-- Key match for a per-owner date album (`none` = unknown-date bucket). -/
def dateKeyed (d : Option Int) (owner : Nat) (a : AlbumDate) : Bool :=
  a.date == d && a.owner == owner

/-- Modelled from the spec: `api.models.album_date.get_album_date(date,
owner)` (module not in the sources) is the entity store's keyed lookup,
returning the row or `None`. -/
def getAlbumDate (d : Option Int) (owner : Nat) (dates : List AlbumDate) : Option AlbumDate :=
  dates.find? (dateKeyed d owner)

/-- Modelled from the spec: `api.models.album_date.get_or_create_album_date`
(module not in the sources) is the entity store's get-or-create-by-key; this
function also performs the subsequent `photos.add` and `save`. -/
def addPhotoToDate (key : Option Int) (hash : String) (owner : Nat)
    (dates : List AlbumDate) : List AlbumDate :=
  if dates.any (dateKeyed key owner) then
    updateFirst (dateKeyed key owner)
      (fun a => { a with photos := addMember a.photos hash }) dates
  else
    dates ++ [{ date := key, owner := owner, photos := addMember [] hash }]

/-- `_find_album_date`: looks up the date album for the photo's current
`exif_timestamp` (or the unknown-date bucket).  The source's membership
check `possible_old_album_date.photos.filter(...).exists` lacks call
parentheses, so it is a truthy bound method and the condition reduces to
`possible_old_album_date is not None`. -/
def findAlbumDate (p : Photo) (dates : List AlbumDate) : Option AlbumDate :=
  getAlbumDate (p.exif_timestamp.map dateOf) p.owner dates

/-- `_extract_date_time_from_exif`: parse the EXIF tag, then (overriding it)
the video container tag with timezone correction; snapshot the old date
album, store the new timestamp (`if changed then assign` has the same net
effect as assigning), remove the photo from the old album, and add it to the
get-or-created album of the new date (or the unknown-date bucket). -/
def extractDateTimeFromExif (env : DateEnv) (p : Photo) (dates : List AlbumDate) :
    Photo × List AlbumDate :=
  let tsFromExif : Option Int := none
  let tsFromExif :=
    if truthyStr env.exifStr then env.parse (env.exifStr.getD "") else tsFromExif
  let tsFromExif :=
    if truthyStr env.exifVideoStr then
      match env.parse (env.exifVideoStr.getD "") with
      | some t => some (tryGettingTimezoneFromGeolocation env p t)
      | none => none
    else tsFromExif
  let old_album_date := findAlbumDate p dates
  let p := { p with exif_timestamp := tsFromExif }
  let dates :=
    match old_album_date with
    | some old =>
      updateFirst (dateKeyed old.date old.owner)
        (fun a => { a with photos := removeMember a.photos p.image_hash }) dates
    | none => dates
  let dates :=
    match p.exif_timestamp with
    | some ts => addPhotoToDate (some (dateOf ts)) p.image_hash p.owner dates
    | none => addPhotoToDate none p.image_hash p.owner dates
  (p, dates)

/-! ## Face stage (`_extract_faces`) -/

/-- Outcome of `face_recognition.face_locations`. -/
inductive DetectOutcome where
  | throw
  | ok (boxes : List Box)

/-- Outcome of the batched `face_recognition.face_encodings` call. -/
inductive EncodeOutcome where
  | throw
  | ok (encodings : List (List Int))

/-- The dedup query of `_extract_faces`: each of the four stored coordinates
within `margin = 2` (inclusive) of the candidate box's. -/
def closeTo (f : Face) (b : Box) : Bool :=
  f.location_top ≤ b.top + 2 && f.location_top ≥ b.top - 2 &&
  f.location_right ≤ b.right + 2 && f.location_right ≥ b.right - 2 &&
  f.location_bottom ≤ b.bottom + 2 && f.location_bottom ≥ b.bottom - 2 &&
  f.location_left ≤ b.left + 2 && f.location_left ≥ b.left - 2

/-- A fresh autoincrement id for a new `Person` row. -/
def freshPersonId (persons : List Person) : Nat :=
  (persons.map Person.id).foldl max 0 + 1

/-- The per-detection loop of `_extract_faces`: for each (encoding, box)
pair, skip when an existing `Face` of this photo is within the ±2 tolerance
(a face saved earlier in the same loop is visible to the query), otherwise
save a new `Face` assigned to `personId`. -/
def faceLoop (hash : String) (personId : Nat) :
    List (List Int × Box) → List Face → List Face
  | [], faces => faces
  | (e, b) :: rest, faces =>
    let existing := faces.filter (fun f => f.photo == hash && closeTo f b)
    if existing.length != 0 then faceLoop hash personId rest faces
    else
      faceLoop hash personId rest
        (faces ++ [{ photo := hash, location_top := b.top, location_right := b.right,
                     location_bottom := b.bottom, location_left := b.left,
                     encoding := e, person := personId }])

/-- `_extract_faces`: ensure a person named `"unknown"` exists (the filter is
by name only — `Person.objects.filter(name="unknown")` — with no owner
scoping), run detection (a thrown detection is caught: zero locations), and
if any faces were located run the unguarded batched encoding call — a throw
there propagates out of the stage (first component `true`), with the person
creation already committed. -/
def extractFaces (det : DetectOutcome) (enc : EncodeOutcome) (p : Photo)
    (persons : List Person) (faces : List Face) : Bool × List Person × List Face :=
  let qs_unknown_person := persons.filter (fun q => q.name == "unknown")
  let step : Person × List Person :=
    if qs_unknown_person.length == 0 then
      let newP : Person := { id := freshPersonId persons, name := "unknown" }
      (newP, persons ++ [newP])
    else (qs_unknown_person.headD { id := 0, name := "" }, persons)
  let unknown_person := step.1
  let persons := step.2
  let face_locations := match det with | .throw => [] | .ok bs => bs
  if face_locations.length > 0 then
    match enc with
    | .throw => (true, persons, faces)
    | .ok encs =>
      (false, persons, faceLoop p.image_hash unknown_person.id (encs.zip face_locations) faces)
  else
    (false, persons, faces)

/-! ## Derived predicates used by the statements -/

/-- The labels a successful geolocation run files the photo under: the
`"text"` values of the features, skipping missing and purely numeric
labels. -/
def labelsOf (fs : List Feature) : List String :=
  (fs.filterMap Feature.text).filter (fun t => !pyIsNumeric t)

/-- Two place-album rows have distinct `(title, owner)` keys. -/
def placeKeyDistinct (a b : AlbumPlace) : Prop :=
  a.title ≠ b.title ∨ a.owner ≠ b.owner

/-- Well-formed place-album store: the `(title, owner)` key is unique
(the database's get-or-create key). -/
def PlacesWF (places : List AlbumPlace) : Prop :=
  places.Pairwise placeKeyDistinct

/-- The photo is a member of exactly the owner's place albums titled by
`done`. -/
def placeInv (hash : String) (o : Nat) (places : List AlbumPlace) (done : List String) : Prop :=
  ∀ a ∈ places, hash ∈ a.photos ↔ (a.owner = o ∧ a.title ∈ done)

/-- Two date-album rows have distinct `(date, owner)` keys. -/
def dateKeyDistinct (a b : AlbumDate) : Prop :=
  a.date ≠ b.date ∨ a.owner ≠ b.owner

/-- Well-formed date-album store: the `(date, owner)` key is unique. -/
def DatesWF (dates : List AlbumDate) : Prop :=
  dates.Pairwise dateKeyDistinct

/-- Every date album containing the photo is the owner's album for `key`
(the pipeline's own invariant: membership tracks the stored timestamp). -/
def dateInv (hash : String) (o : Nat) (key : Option Int) (dates : List AlbumDate) : Prop :=
  ∀ a ∈ dates, hash ∈ a.photos → (a.owner = o ∧ a.date = key)

/-- Per-coordinate closeness of two boxes, with the source's inclusive ±2
margin: `b₁`'s coordinates each lie within 2 pixels of `b₂`'s. -/
def boxNear (b₁ b₂ : Box) : Bool :=
  b₁.top ≤ b₂.top + 2 && b₁.top ≥ b₂.top - 2 &&
  b₁.right ≤ b₂.right + 2 && b₁.right ≥ b₂.right - 2 &&
  b₁.bottom ≤ b₂.bottom + 2 && b₁.bottom ≥ b₂.bottom - 2 &&
  b₁.left ≤ b₂.left + 2 && b₁.left ≥ b₂.left - 2

/-- The `Face` row `_extract_faces` saves for a detection. -/
def mkFace (hash : String) (personId : Nat) (e : List Int) (b : Box) : Face :=
  { photo := hash, location_top := b.top, location_right := b.right,
    location_bottom := b.bottom, location_left := b.left,
    encoding := e, person := personId }

/-- The geocode outcomes the stage treats as failures: a thrown exception,
a `None` or empty response, or a response without a `"features"` key. -/
def geoFails : GeoOutcome → Bool
  | .throw => true
  | .ok none => true
  | .ok (some r) => r.numKeys == 0 || r.features.isNone

/-! ## Concrete inputs for witnesses and counterexamples -/

/-- A baseline photo row with all derived fields empty. -/
def basePhoto : Photo :=
  { image_hash := "h0", owner := 1, exif_gps_lat := none, exif_gps_lon := none,
    exif_timestamp := none, geolocation_json := none, search_location := none,
    search_captions := none, captions_json := none, clip_embeddings := none,
    clip_embeddings_magnitude := none, dominant_color := none }

/-- First run of the face stage for the C3 counterexample: two detections
whose boxes are within the ±2 tolerance of each other, so the second is
deduplicated against the first. -/
def c3run1 : Bool × List Person × List Face :=
  extractFaces (.ok [{ top := 0, right := 0, bottom := 0, left := 0 },
                     { top := 2, right := 2, bottom := 2, left := 2 }])
    (.ok [[1], [2]]) basePhoto [] []

/-- Second run on the same (unchanged) thumbnail: both detections jitter by
at most 2 pixels per coordinate relative to the first run's detections. -/
def c3run2 : Bool × List Person × List Face :=
  extractFaces (.ok [{ top := 0, right := 0, bottom := 0, left := 0 },
                     { top := 4, right := 4, bottom := 4, left := 4 }])
    (.ok [[1], [2]]) basePhoto c3run1.2.1 c3run1.2.2

/-- Two photos of two different owners, for the unknown-person claim. -/
def photoA : Photo := { basePhoto with image_hash := "a", owner := 1 }

/-- Second photo, different owner. -/
def photoB : Photo := { basePhoto with image_hash := "b", owner := 2 }

/-- Face stage run on owner 1's photo, starting from an empty store. -/
def c8run1 : Bool × List Person × List Face :=
  extractFaces (.ok [{ top := 0, right := 10, bottom := 10, left := 0 }])
    (.ok [[1]]) photoA [] []

/-- Face stage run on owner 2's photo, continuing from the first run's
store. -/
def c8run2 : Bool × List Person × List Face :=
  extractFaces (.ok [{ top := 100, right := 110, bottom := 110, left := 100 }])
    (.ok [[2]]) photoB c8run1.2.1 c8run1.2.2

/-- The Paris scenario's feature list, finest to coarsest. -/
def fsEPF : List Feature :=
  [{ text := some "Eiffel Tower" }, { text := some "Paris" }, { text := some "France" }]

/-- A well-formed geocode response carrying the Paris feature list. -/
def rEPF : MapboxRes := { features := some fsEPF, search_text := none, extra_keys := 0 }

/-- A stale place album the photo starts out in. -/
def berlinAlbum : AlbumPlace :=
  { title := "Berlin", owner := 1, photos := ["h0"], geolocation_level := some 1 }

/-- The stale album after the swap: the photo has been removed. -/
def berlinAfter : AlbumPlace :=
  { title := "Berlin", owner := 1, photos := [], geolocation_level := some 1 }

/-- The album created for the second feature: level `3 - 1 = 2`. -/
def parisAfter : AlbumPlace :=
  { title := "Paris", owner := 1, photos := ["h0"], geolocation_level := some 2 }

/-- A photo whose stored coordinates already equal the newly read ones but
with no cached geolocation result — the short-circuit guard does not fire
and the stage proceeds. -/
def c5photo : Photo :=
  { basePhoto with exif_gps_lat := some 1, exif_gps_lon := some 2 }

/-- A photo whose embedding is already set (dominant color still unset). -/
def c7embPhoto : Photo :=
  { basePhoto with clip_embeddings := some [1, 2], clip_embeddings_magnitude := some 3 }

/-- A photo whose dominant color is already set (embedding still unset). -/
def c7colorPhoto : Photo :=
  { basePhoto with dominant_color := some "[5, 5, 5]" }

/-- A metadata environment for a video with a container timestamp and no
EXIF timestamp; the timezone oracle would shift by 60 minutes if it were
ever consulted. -/
def c4env : DateEnv :=
  { exifStr := none, exifVideoStr := some "2020:01:01 00:16:40",
    parse := fun s => if s = "2020:01:01 00:16:40" then some 1000 else none,
    tzAt := fun _ _ => some 60 }

/-- The id the face stage assigns to new faces: the existing first person
named `"unknown"`, or the freshly created one. -/
def unknownIdAfter (persons : List Person) : Nat :=
  if (persons.filter (fun q => q.name == "unknown")).length == 0 then freshPersonId persons
  else ((persons.filter (fun q => q.name == "unknown")).headD { id := 0, name := "" }).id

/-! ## Shared lemmas -/

theorem mem_addMember_self (xs : List String) (h : String) : h ∈ addMember xs h := by
  unfold addMember
  split
  · assumption
  · simp

theorem mem_addMember_iff (xs : List String) (h x : String) :
    x ∈ addMember xs h ↔ x ∈ xs ∨ x = h := by
  unfold addMember
  split
  · rename_i hx
    constructor
    · exact Or.inl
    · rintro (hm | rfl) <;> assumption
  · simp

theorem not_mem_removeMember (xs : List String) (h : String) : h ∉ removeMember xs h := by
  unfold removeMember
  intro hm
  have := List.of_mem_filter hm
  simp at this

theorem updateFirst_exists (p : α → Bool) (f : α → α) :
    ∀ xs : List α, xs.any p = true → ∃ b ∈ xs, p b = true ∧ f b ∈ updateFirst p f xs := by
  intro xs
  induction xs with
  | nil => intro h; simp at h
  | cons x xs ih =>
    intro h
    by_cases hx : p x = true
    · refine ⟨x, List.mem_cons_self _ _, hx, ?_⟩
      unfold updateFirst
      rw [if_pos hx]
      exact List.mem_cons_self _ _
    · have hx' : p x = false := Bool.eq_false_iff.mpr hx
      have htl : xs.any p = true := by
        simp only [List.any_cons, hx', Bool.false_or] at h
        exact h
      obtain ⟨b, hb, hpb, hfb⟩ := ih htl
      refine ⟨b, List.mem_cons_of_mem _ hb, hpb, ?_⟩
      unfold updateFirst
      rw [if_neg hx]
      exact List.mem_cons_of_mem _ hfb

theorem mem_updateFirst_of_not_pred (p : α → Bool) (f : α → α) {a : α}
    (hpa : p a = false) :
    ∀ xs : List α, a ∈ xs → a ∈ updateFirst p f xs := by
  intro xs
  induction xs with
  | nil => intro h; exact absurd h (List.not_mem_nil a)
  | cons x xs ih =>
    intro h
    unfold updateFirst
    rcases List.mem_cons.mp h with rfl | hm
    · rw [if_neg (by rw [hpa]; exact Bool.false_ne_true)]
      exact List.mem_cons_self _ _
    · split
      · exact List.mem_cons_of_mem _ hm
      · exact List.mem_cons_of_mem _ (ih hm)

theorem updateFirst_eq_self (p : α → Bool) (f : α → α) :
    ∀ xs : List α, (∀ b ∈ xs, p b = true → f b = b) → updateFirst p f xs = xs := by
  intro xs
  induction xs with
  | nil => intro _; rfl
  | cons x xs ih =>
    intro h
    unfold updateFirst
    split
    · rename_i hx
      rw [h x (List.mem_cons_self _ _) hx]
    · rw [ih (fun b hb => h b (List.mem_cons_of_mem _ hb))]

theorem addPhotoToDate_mem (key : Option Int) (hash : String) (o : Nat)
    (dates : List AlbumDate) :
    ∃ a ∈ addPhotoToDate key hash o dates, a.date = key ∧ a.owner = o ∧ hash ∈ a.photos := by
  unfold addPhotoToDate
  split
  · rename_i hany
    obtain ⟨b, hb, hpb, hfb⟩ := updateFirst_exists _ _ dates hany
    have hk : b.date = key ∧ b.owner = o := by
      unfold dateKeyed at hpb
      simp only [Bool.and_eq_true, beq_iff_eq] at hpb
      exact hpb
    exact ⟨_, hfb, hk.1, hk.2, mem_addMember_self _ _⟩
  · refine ⟨_, List.mem_append_right _ (List.mem_singleton_self _), rfl, rfl, ?_⟩
    show hash ∈ addMember [] hash
    exact mem_addMember_self _ _

theorem mem_faceLoop (hash : String) (pid : Nat) (pairs : List (List Int × Box)) :
    ∀ faces, ∀ f ∈ faceLoop hash pid pairs faces, f ∈ faces ∨ f.person = pid := by
  induction pairs with
  | nil => intro faces f hf; exact Or.inl hf
  | cons pr rest ih =>
    intro faces f hf
    obtain ⟨e, b⟩ := pr
    unfold faceLoop at hf
    dsimp only at hf
    split at hf
    · exact ih faces f hf
    · rcases ih _ f hf with hmem | hp
      · rcases List.mem_append.mp hmem with hl | hr
        · exact Or.inl hl
        · simp at hr
          subst hr
          exact Or.inr rfl
      · exact Or.inr hp

/-! ## Claims -/

/-- C10: a successful run of the scene-caption stage rebuilds the caption
bag from scratch — afterwards `captions_json` is a dict containing exactly
the single key `"places365"`; any previously stored key (in particular an
`"im2txt"` neural caption) is discarded. -/
theorem claim_C10_captions_rebuilt_from_scratch (p : Photo) (r : Places365Res) :
    (generateCaptions (.ok r) p).captions_json = some [("places365", CapVal.p365 r)] ∧
    (((generateCaptions (.ok r) p).captions_json.getD []).map Prod.fst = ["places365"]) := by
  unfold generateCaptions
  dsimp only
  split <;> simp

/-- C7: embedding and dominant color are computed at most once per photo,
each independently — whenever `clip_embeddings` is set (truthy) the
embedding stage leaves the photo unchanged (vector and magnitude included),
and whenever `dominant_color` is set the dominant-color stage leaves it
unchanged, regardless of the other field. -/
theorem claim_C7_computed_at_most_once (p : Photo) (eo : EmbedOutcome) (co : ColorOutcome) :
    (truthyEmb p.clip_embeddings = true → generateClipEmbeddings eo p = p) ∧
    (truthyStr p.dominant_color = true → getDominantColor co p = p) := by
  constructor
  · intro h1
    unfold generateClipEmbeddings
    rw [if_pos h1]
  · intro h2
    unfold getDominantColor
    rw [if_pos h2]

/-- Witness for C7: a photo with only the embedding set skips the embedding
stage, and a photo with only the dominant color set skips the color stage. -/
theorem claim_C7_witness :
    generateClipEmbeddings .throw c7embPhoto = c7embPhoto ∧
    getDominantColor .throw c7colorPhoto = c7colorPhoto :=
  ⟨(claim_C7_computed_at_most_once c7embPhoto .throw .throw).1 (by decide),
   (claim_C7_computed_at_most_once c7colorPhoto .throw .throw).2 (by decide)⟩

/-- C9 counterexample: with a successful detection of one face and a throwing
encoding call, the face stage propagates the exception (first component
`true`) instead of completing normally — the encoding call is outside the
stage's `try`. -/
theorem claim_C9_counterexample :
    (extractFaces (.ok [{ top := 0, right := 10, bottom := 10, left := 0 }]) .throw
      basePhoto [] []).1 = true := by decide

/-- C9 amended: only the face-detection call is guarded — if detection
throws, the stage logs, completes normally (no exception propagates) and
leaves the photo's `Face` set unchanged.  (A throw of the encoding call,
by contrast, propagates out of the stage.) -/
theorem claim_C9_detection_soft_fail (enc : EncodeOutcome) (p : Photo)
    (persons : List Person) (faces : List Face) :
    (extractFaces .throw enc p persons faces).1 = false ∧
    (extractFaces .throw enc p persons faces).2.2 = faces := by
  unfold extractFaces
  simp

/-- C8 counterexample: running the face stage for two photos of two distinct
owners yields a single shared `Person` row named `"unknown"` — the lookup
`Person.objects.filter(name="unknown")` is not scoped by owner — and both
owners' new faces are assigned to that same person, contradicting
per-owner unknown buckets. -/
theorem claim_C8_counterexample :
    photoA.owner ≠ photoB.owner ∧
    c8run2.2.1 = [{ id := 1, name := "unknown" }] ∧
    c8run2.2.2 = [{ photo := "a", location_top := 0, location_right := 10,
                    location_bottom := 10, location_left := 0, encoding := [1], person := 1 },
                  { photo := "b", location_top := 100, location_right := 110,
                    location_bottom := 110, location_left := 100, encoding := [2], person := 1 }] := by
  decide

theorem extractFaces_persons_eq (det : DetectOutcome) (enc : EncodeOutcome)
    (p : Photo) (persons : List Person) (faces : List Face) :
    (extractFaces det enc p persons faces).2.1 =
      if (persons.filter (fun q => q.name == "unknown")).length == 0 then
        persons ++ [{ id := freshPersonId persons, name := "unknown" }]
      else persons := by
  unfold extractFaces
  dsimp only
  by_cases hq : ((persons.filter (fun q => q.name == "unknown")).length == 0) = true
  · rw [if_pos hq, if_pos hq]
    cases det <;> cases enc <;> dsimp only <;> split <;> rfl
  · rw [if_neg hq, if_neg hq]
    cases det <;> cases enc <;> dsimp only <;> split <;> rfl

theorem extractFaces_faces_eq (det : DetectOutcome) (enc : EncodeOutcome)
    (p : Photo) (persons : List Person) (faces : List Face) :
    (extractFaces det enc p persons faces).2.2 = faces ∨
    ∃ pairs, (extractFaces det enc p persons faces).2.2 =
      faceLoop p.image_hash (unknownIdAfter persons) pairs faces := by
  unfold extractFaces unknownIdAfter
  dsimp only
  by_cases hq : ((persons.filter (fun q => q.name == "unknown")).length == 0) = true
  · rw [if_pos hq, if_pos hq]
    cases det <;> cases enc <;> dsimp only <;> split <;>
      first
      | exact Or.inl rfl
      | exact Or.inr ⟨_, rfl⟩
  · rw [if_neg hq, if_neg hq]
    cases det <;> cases enc <;> dsimp only <;> split <;>
      first
      | exact Or.inl rfl
      | exact Or.inr ⟨_, rfl⟩

/-- C8 amended: after every run of the face stage a `Person` named
`"unknown"` exists; it is global — keyed by name only, not by owner — and is
created only when absent (never a second time once any unknown person
exists, regardless of which owner's run created it); every newly created
Face is assigned to that global unknown person. -/
theorem claim_C8_global_unknown_person (det : DetectOutcome) (enc : EncodeOutcome)
    (p : Photo) (persons : List Person) (faces : List Face) :
    (∃ q ∈ (extractFaces det enc p persons faces).2.1,
      q.name = "unknown" ∧ q.id = unknownIdAfter persons) ∧
    (1 ≤ (persons.filter (fun q => q.name == "unknown")).length →
      (extractFaces det enc p persons faces).2.1 = persons) ∧
    (∀ f ∈ (extractFaces det enc p persons faces).2.2, f ∉ faces →
      f.person = unknownIdAfter persons) := by
  have hp := extractFaces_persons_eq det enc p persons faces
  refine ⟨?_, ?_, ?_⟩
  · rw [hp]
    unfold unknownIdAfter
    by_cases hq : ((persons.filter (fun q => q.name == "unknown")).length == 0) = true
    · rw [if_pos hq, if_pos hq]
      exact ⟨_, List.mem_append_right _ (List.mem_singleton_self _), rfl, rfl⟩
    · rw [if_neg hq, if_neg hq]
      have hne : (persons.filter (fun q => q.name == "unknown")) ≠ [] := by
        intro hnil
        apply hq
        rw [hnil]
        rfl
      obtain ⟨q, qs, hcons⟩ := List.exists_cons_of_ne_nil hne
      refine ⟨q, ?_, ?_, ?_⟩
      · have : q ∈ persons.filter (fun x => x.name == "unknown") := by
          rw [hcons]; exact List.mem_cons_self _ _
        exact List.mem_of_mem_filter this
      · have : q ∈ persons.filter (fun x => x.name == "unknown") := by
          rw [hcons]; exact List.mem_cons_self _ _
        have := List.of_mem_filter this
        simpa using this
      · rw [hcons]
        rfl
  · intro hlen
    rw [hp, if_neg ?_]
    intro hq
    have : (persons.filter (fun q => q.name == "unknown")).length = 0 := by
      simpa using hq
    omega
  · intro f hf hnf
    rcases extractFaces_faces_eq det enc p persons faces with he | ⟨pairs, he⟩
    · rw [he] at hf
      exact absurd hf hnf
    · rw [he] at hf
      rcases mem_faceLoop p.image_hash (unknownIdAfter persons) pairs faces f hf with hm | hpid
      · exact absurd hm hnf
      · exact hpid

/-- Witness for C8: with an unknown person already in the store, the run
creates no second one. -/
theorem claim_C8_witness :
    (extractFaces (.ok [{ top := 0, right := 10, bottom := 10, left := 0 }]) (.ok [[1]])
      photoA [{ id := 7, name := "unknown" }] []).2.1 = [{ id := 7, name := "unknown" }] :=
  (claim_C8_global_unknown_person (.ok [{ top := 0, right := 10, bottom := 10, left := 0 }])
    (.ok [[1]]) photoA [{ id := 7, name := "unknown" }] []).2.1 (by decide)

/-- C6: when new coordinates are read (truthy, and the short-circuit guard
does not fire), the stored coordinates are updated before the
reverse-geocode call; if that call throws, returns `None`/empty, or returns
a dict without a `"features"` key, the stage stops with the new coordinates
kept while `geolocation_json`, `search_location` and every place-album
membership stay exactly as they were. -/
theorem claim_C6_geolocate_soft_fail (p : Photo) (places : List AlbumPlace)
    (newLat newLon : Option Rat) (geocode : GeoOutcome)
    (h1 : truthyCoord newLat = true) (h2 : truthyCoord newLon = true)
    (h3 : (p.exif_gps_lat == some (newLat.getD 0) && p.exif_gps_lon == some (newLon.getD 0)
           && (findAlbumPlaces p.image_hash places).length != 0
           && truthyGeo p.geolocation_json) = false)
    (h4 : geoFails geocode = true) :
    geolocateMapbox newLat newLon geocode p places =
      ({ p with exif_gps_lon := some (newLon.getD 0), exif_gps_lat := some (newLat.getD 0) },
        places) := by
  unfold geolocateMapbox
  dsimp only
  rw [if_neg (by rw [h1, h2]; decide)]
  rw [if_neg (by rw [h3]; decide)]
  cases geocode with
  | throw => rfl
  | ok res =>
    cases res with
    | none => rfl
    | some r =>
      unfold geoFails at h4
      dsimp only at h4 ⊢
      by_cases hk : (r.numKeys == 0) = true
      · rw [if_pos hk]
      · rw [if_neg hk]
        have hf : r.features.isNone = true := by
          rcases Bool.or_eq_true_iff.mp h4 with h | h
          · exact absurd h hk
          · exact h
        rw [if_pos hf]

/-- Witness for C6: fresh photo, empty place store, geocode call throws —
the coordinates are kept, everything else untouched. -/
theorem claim_C6_witness :
    geolocateMapbox (some 1) (some 2) .throw basePhoto [] =
      ({ basePhoto with exif_gps_lon := some 2, exif_gps_lat := some 1 }, []) :=
  claim_C6_geolocate_soft_fail basePhoto [] (some 1) (some 2) .throw (by decide) (by decide)
    (by decide) (by decide)

/-- C4: timezone correction applies only when both coordinates are present —
with latitude or longitude absent, `_try_getting_timezone_from_geolocation`
returns every timestamp unchanged; in particular a video asset with no GPS
and a valid container timestamp gets `exif_timestamp` equal to the parsed
UTC value and is added to the date album of that UTC date. -/
theorem claim_C4_no_timezone_correction_without_coords (env : DateEnv) (p : Photo)
    (dates : List AlbumDate) (t : Int)
    (hc : p.exif_gps_lat = none ∨ p.exif_gps_lon = none)
    (hev : truthyStr env.exifVideoStr = true)
    (hp : env.parse (env.exifVideoStr.getD "") = some t) :
    (∀ ts, tryGettingTimezoneFromGeolocation env p ts = ts) ∧
    (extractDateTimeFromExif env p dates).1.exif_timestamp = some t ∧
    ∃ a ∈ (extractDateTimeFromExif env p dates).2,
      a.date = some (dateOf t) ∧ a.owner = p.owner ∧ p.image_hash ∈ a.photos := by
  have htz : ∀ ts, tryGettingTimezoneFromGeolocation env p ts = ts := by
    intro ts
    unfold tryGettingTimezoneFromGeolocation
    rcases hc with hlat | hlon
    · rw [if_neg (by rw [hlat]; simp [truthyCoord])]
    · rw [if_neg (by rw [hlon]; simp [truthyCoord])]
  refine ⟨htz, ?_, ?_⟩
  · unfold extractDateTimeFromExif
    dsimp only
    rw [if_pos hev, hp]
    dsimp only
    rw [htz t]
  · unfold extractDateTimeFromExif
    dsimp only
    rw [if_pos hev, hp]
    dsimp only
    rw [htz t]
    exact addPhotoToDate_mem (some (dateOf t)) p.image_hash p.owner _

/-- Witness for C4: a GPS-less video whose container timestamp parses to
minute 1000 keeps exactly that timestamp (the 60-minute zone shift is never
applied) and lands in the date album of day `dateOf 1000 = 0`. -/
theorem claim_C4_witness :
    (extractDateTimeFromExif c4env basePhoto []).1.exif_timestamp = some 1000 ∧
    ∃ a ∈ (extractDateTimeFromExif c4env basePhoto []).2,
      a.date = some (dateOf 1000) ∧ a.owner = basePhoto.owner ∧
        basePhoto.image_hash ∈ a.photos :=
  ⟨(claim_C4_no_timezone_correction_without_coords c4env basePhoto [] 1000
      (Or.inl rfl) (by decide) (by decide)).2.1,
   (claim_C4_no_timezone_correction_without_coords c4env basePhoto [] 1000
      (Or.inl rfl) (by decide) (by decide)).2.2⟩

theorem updateFirst_remove_not_mem (hash : String) (k : Option Int) (o : Nat) :
    ∀ dates : List AlbumDate, DatesWF dates →
      (∀ a ∈ dates, hash ∈ a.photos → dateKeyed k o a = true) →
      ∀ a ∈ updateFirst (dateKeyed k o)
        (fun a => { a with photos := removeMember a.photos hash }) dates,
        hash ∉ a.photos := by
  intro dates
  induction dates with
  | nil => intro _ _ a ha; exact absurd ha (List.not_mem_nil a)
  | cons x xs ih =>
    intro hWF hmem a ha
    unfold updateFirst at ha
    by_cases hx : dateKeyed k o x = true
    · rw [if_pos hx] at ha
      rcases List.mem_cons.mp ha with rfl | hmem'
      · show hash ∉ removeMember x.photos hash
        exact not_mem_removeMember _ _
      · intro hin
        have hk := hmem a (List.mem_cons_of_mem _ hmem') hin
        have hdist := (List.pairwise_cons.mp hWF).1 a hmem'
        unfold dateKeyed at hx hk
        simp only [Bool.and_eq_true, beq_iff_eq] at hx hk
        unfold dateKeyDistinct at hdist
        rcases hdist with h | h
        · exact h (hx.1.trans hk.1.symm)
        · exact h (hx.2.trans hk.2.symm)
    · rw [if_neg hx] at ha
      rcases List.mem_cons.mp ha with rfl | hmem'
      · intro hin
        exact hx (hmem a (List.mem_cons_self _ _) hin)
      · exact ih (List.pairwise_cons.mp hWF).2
          (fun b hb hbin => hmem b (List.mem_cons_of_mem _ hb) hbin) a hmem'

theorem updateFirst_add_unique (key : Option Int) (hash : String) (o : Nat) :
    ∀ dates : List AlbumDate, (∀ a ∈ dates, hash ∉ a.photos) →
      dates.any (dateKeyed key o) = true →
      ∃ a ∈ updateFirst (dateKeyed key o)
        (fun a => { a with photos := addMember a.photos hash }) dates,
        a.date = key ∧ a.owner = o ∧ hash ∈ a.photos ∧
        ∀ b ∈ updateFirst (dateKeyed key o)
          (fun a => { a with photos := addMember a.photos hash }) dates,
          hash ∈ b.photos → b = a := by
  intro dates
  induction dates with
  | nil => intro _ h; simp at h
  | cons x xs ih =>
    intro hempty hany
    by_cases hx : dateKeyed key o x = true
    · have hkx : x.date = key ∧ x.owner = o := by
        unfold dateKeyed at hx
        simp only [Bool.and_eq_true, beq_iff_eq] at hx
        exact hx
      refine ⟨{ x with photos := addMember x.photos hash }, ?_, hkx.1, hkx.2, ?_, ?_⟩
      · unfold updateFirst
        rw [if_pos hx]
        exact List.mem_cons_self _ _
      · exact mem_addMember_self _ _
      · intro b hb hbin
        unfold updateFirst at hb
        rw [if_pos hx] at hb
        rcases List.mem_cons.mp hb with rfl | hmem'
        · rfl
        · exact absurd hbin (hempty b (List.mem_cons_of_mem _ hmem'))
    · have hanyx : xs.any (dateKeyed key o) = true := by
        have hx' : dateKeyed key o x = false := Bool.eq_false_iff.mpr hx
        simp only [List.any_cons, hx', Bool.false_or] at hany
        exact hany
      obtain ⟨a, ha, hk1, hk2, hin, huniq⟩ :=
        ih (fun b hb => hempty b (List.mem_cons_of_mem _ hb)) hanyx
      refine ⟨a, ?_, hk1, hk2, hin, ?_⟩
      · unfold updateFirst
        rw [if_neg hx]
        exact List.mem_cons_of_mem _ ha
      · intro b hb hbin
        unfold updateFirst at hb
        rw [if_neg hx] at hb
        rcases List.mem_cons.mp hb with rfl | hmem'
        · exact absurd hbin (hempty b (List.mem_cons_self _ _))
        · exact huniq b hmem' hbin

theorem addPhotoToDate_unique (key : Option Int) (hash : String) (o : Nat)
    (dates : List AlbumDate) (hempty : ∀ a ∈ dates, hash ∉ a.photos) :
    ∃ a ∈ addPhotoToDate key hash o dates,
      a.date = key ∧ a.owner = o ∧ hash ∈ a.photos ∧
      ∀ b ∈ addPhotoToDate key hash o dates, hash ∈ b.photos → b = a := by
  unfold addPhotoToDate
  split
  · rename_i hany
    exact updateFirst_add_unique key hash o dates hempty hany
  · refine ⟨{ date := key, owner := o, photos := addMember [] hash },
      List.mem_append_right _ (List.mem_singleton_self _), rfl, rfl, ?_, ?_⟩
    · show hash ∈ addMember [] hash
      exact mem_addMember_self _ _
    · intro b hb hbin
      rcases List.mem_append.mp hb with h | h
      · exact absurd hbin (hempty b h)
      · exact List.mem_singleton.mp h

/-- C2: under the pipeline's own invariant — a well-formed date-album store
in which every album containing the photo is the owner's album for the
photo's currently stored timestamp — the timestamp stage leaves the photo a
member of exactly one date album: the owner's album keyed by the newly
resolved date (or the unknown-date bucket). -/
theorem claim_C2_exactly_one_date_album (env : DateEnv) (p : Photo) (dates : List AlbumDate)
    (hWF : DatesWF dates)
    (hinv : dateInv p.image_hash p.owner (p.exif_timestamp.map dateOf) dates) :
    ∃ a ∈ (extractDateTimeFromExif env p dates).2,
      a.owner = p.owner ∧
      a.date = ((extractDateTimeFromExif env p dates).1.exif_timestamp.map dateOf) ∧
      p.image_hash ∈ a.photos ∧
      ∀ b ∈ (extractDateTimeFromExif env p dates).2, p.image_hash ∈ b.photos → b = a := by
  unfold extractDateTimeFromExif
  dsimp only
  generalize (if truthyStr env.exifVideoStr = true then
      match env.parse (env.exifVideoStr.getD "") with
      | some t => some (tryGettingTimezoneFromGeolocation env p t)
      | none => none
    else if truthyStr env.exifStr = true then env.parse (env.exifStr.getD "")
    else none) = ts
  have hempty : ∀ a ∈ (match findAlbumDate p dates with
      | some old =>
        updateFirst (dateKeyed old.date old.owner)
          (fun a => { a with photos := removeMember a.photos p.image_hash }) dates
      | none => dates), p.image_hash ∉ a.photos := by
    cases hfind : findAlbumDate p dates with
    | none =>
      intro a ha hin
      unfold findAlbumDate getAlbumDate at hfind
      have hnone := List.find?_eq_none.mp hfind a ha
      have hk := hinv a ha hin
      apply hnone
      unfold dateKeyed
      simp only [Bool.and_eq_true, beq_iff_eq]
      exact ⟨hk.2, hk.1⟩
    | some old =>
      unfold findAlbumDate getAlbumDate at hfind
      have hkold := List.find?_some hfind
      unfold dateKeyed at hkold
      simp only [Bool.and_eq_true, beq_iff_eq] at hkold
      intro a ha
      refine updateFirst_remove_not_mem p.image_hash old.date old.owner dates hWF ?_ a ha
      intro b hb hbin
      have hk := hinv b hb hbin
      unfold dateKeyed
      simp only [Bool.and_eq_true, beq_iff_eq]
      exact ⟨hk.2.trans hkold.1.symm, hk.1.trans hkold.2.symm⟩
  cases ts with
  | none =>
    dsimp only
    obtain ⟨a, ha, hk1, hk2, hin, huniq⟩ :=
      addPhotoToDate_unique none p.image_hash p.owner _ hempty
    exact ⟨a, ha, hk2, hk1, hin, huniq⟩
  | some tsv =>
    dsimp only
    obtain ⟨a, ha, hk1, hk2, hin, huniq⟩ :=
      addPhotoToDate_unique (some (dateOf tsv)) p.image_hash p.owner _ hempty
    exact ⟨a, ha, hk2, hk1, hin, huniq⟩

/-- Witness for C2: a fresh photo and an empty album store — after the stage
the photo is in exactly one date album. -/
theorem claim_C2_witness :
    ∃ a ∈ (extractDateTimeFromExif c4env basePhoto []).2,
      a.owner = basePhoto.owner ∧
      a.date = ((extractDateTimeFromExif c4env basePhoto []).1.exif_timestamp.map dateOf) ∧
      basePhoto.image_hash ∈ a.photos ∧
      ∀ b ∈ (extractDateTimeFromExif c4env basePhoto []).2,
        basePhoto.image_hash ∈ b.photos → b = a :=
  claim_C2_exactly_one_date_album c4env basePhoto [] List.Pairwise.nil
    (fun a ha => absurd ha (List.not_mem_nil a))

theorem mem_updateFirst (p : α → Bool) (f : α → α) :
    ∀ xs : List α, ∀ b ∈ updateFirst p f xs, b ∈ xs ∨ ∃ c ∈ xs, b = f c := by
  intro xs
  induction xs with
  | nil => intro b hb; exact absurd hb (List.not_mem_nil b)
  | cons x xs ih =>
    intro b hb
    unfold updateFirst at hb
    split at hb
    · rcases List.mem_cons.mp hb with rfl | hm
      · exact Or.inr ⟨x, List.mem_cons_self _ _, rfl⟩
      · exact Or.inl (List.mem_cons_of_mem _ hm)
    · rcases List.mem_cons.mp hb with rfl | hm
      · exact Or.inl (List.mem_cons_self _ _)
      · rcases ih b hm with h | ⟨c, hc, hbc⟩
        · exact Or.inl (List.mem_cons_of_mem _ h)
        · exact Or.inr ⟨c, List.mem_cons_of_mem _ hc, hbc⟩

theorem addPhotoToPlace_wf (hash : String) (o : Nat) (lvl : Int) (t : String) :
    ∀ places : List AlbumPlace, PlacesWF places →
      PlacesWF (addPhotoToPlace hash o lvl t places) := by
  intro places h
  unfold addPhotoToPlace
  split
  · rename_i hany
    unfold PlacesWF at h ⊢
    clear hany
    induction places with
    | nil => exact h
    | cons x xs ih =>
      obtain ⟨hx, hxs⟩ := List.pairwise_cons.mp h
      unfold updateFirst
      split
      · refine List.pairwise_cons.mpr ⟨?_, hxs⟩
        intro b hb
        have hd := hx b hb
        unfold placeKeyDistinct at hd ⊢
        dsimp only
        split <;> exact hd
      · refine List.pairwise_cons.mpr ⟨?_, ih hxs⟩
        intro b hb
        rcases mem_updateFirst _ _ xs b hb with hm | ⟨c, hc, rfl⟩
        · exact hx b hm
        · have hd := hx c hc
          unfold placeKeyDistinct at hd ⊢
          dsimp only
          split <;> exact hd
  · rename_i hany
    have hall : ∀ a ∈ places, placeKeyed t o a = false := by
      intro a ha
      cases hb : placeKeyed t o a with
      | false => rfl
      | true => exact absurd (List.any_eq_true.mpr ⟨a, ha, hb⟩) hany
    apply List.pairwise_append.mpr
    refine ⟨h, List.pairwise_singleton _ _, ?_⟩
    intro a ha b hb
    have hfalse := hall a ha
    unfold placeKeyed at hfalse
    rcases List.mem_singleton.mp hb with rfl
    unfold placeKeyDistinct
    dsimp only
    by_cases hteq : a.title = t
    · refine Or.inr ?_
      intro hoeq
      rw [beq_iff_eq.mpr hteq, beq_iff_eq.mpr hoeq] at hfalse
      simp at hfalse
    · exact Or.inl hteq

theorem addPhotoToPlace_inv (hash : String) (o : Nat) (lvl : Int) (t : String)
    (done : List String) :
    ∀ places : List AlbumPlace, PlacesWF places →
      placeInv hash o places done →
      placeInv hash o (addPhotoToPlace hash o lvl t places) (done ++ [t]) := by
  intro places hWF hinv
  unfold addPhotoToPlace
  split
  · rename_i hany
    clear hany
    induction places with
    | nil => intro a ha; exact absurd ha (List.not_mem_nil a)
    | cons x xs ih =>
      obtain ⟨hx, hxs⟩ := List.pairwise_cons.mp hWF
      have hinvx := hinv x (List.mem_cons_self _ _)
      have hinvxs : placeInv hash o xs done :=
        fun b hb => hinv b (List.mem_cons_of_mem _ hb)
      intro a ha
      unfold updateFirst at ha
      split at ha
      · rename_i hpx
        have hkx : x.title = t ∧ x.owner = o := by
          unfold placeKeyed at hpx
          simp only [Bool.and_eq_true, beq_iff_eq] at hpx
          exact hpx
        rcases List.mem_cons.mp ha with rfl | hm
        · constructor
          · intro _
            refine ⟨?_, ?_⟩
            · dsimp only
              split <;> exact hkx.2
            · dsimp only
              split <;>
                exact List.mem_append_right _
                  (hkx.1 ▸ List.mem_singleton_self t)
          · intro _
            show hash ∈ addMember _ hash
            exact mem_addMember_self _ _
        · have hda := hx a hm
          unfold placeKeyDistinct at hda
          rw [hinvxs a hm]
          constructor
          · rintro ⟨ho, hd⟩
            exact ⟨ho, List.mem_append_left _ hd⟩
          · rintro ⟨ho, hd⟩
            rcases List.mem_append.mp hd with hd | hd
            · exact ⟨ho, hd⟩
            · rcases List.mem_singleton.mp hd with rfl
              rcases hda with h | h
              · exact absurd hkx.1 h
              · exact absurd (hkx.2.trans ho.symm) h
      · rename_i hpx
        rcases List.mem_cons.mp ha with rfl | hm
        · rw [hinvx]
          have hpx' : ¬(a.title = t ∧ a.owner = o) := by
            intro ⟨h1, h2⟩
            apply hpx
            unfold placeKeyed
            simp only [Bool.and_eq_true, beq_iff_eq]
            exact ⟨h1, h2⟩
          constructor
          · rintro ⟨ho, hd⟩
            exact ⟨ho, List.mem_append_left _ hd⟩
          · rintro ⟨ho, hd⟩
            rcases List.mem_append.mp hd with hd | hd
            · exact ⟨ho, hd⟩
            · rcases List.mem_singleton.mp hd with rfl
              exact absurd ⟨rfl, ho⟩ hpx'
        · exact ih hxs hinvxs a hm
  · rename_i hany
    have hall : ∀ a ∈ places, ¬(a.title = t ∧ a.owner = o) := by
      intro a ha hcon
      apply hany
      refine List.any_eq_true.mpr ⟨a, ha, ?_⟩
      unfold placeKeyed
      simp only [Bool.and_eq_true, beq_iff_eq]
      exact hcon
    intro a ha
    rcases List.mem_append.mp ha with hm | hm
    · rw [hinv a hm]
      constructor
      · rintro ⟨ho, hd⟩
        exact ⟨ho, List.mem_append_left _ hd⟩
      · rintro ⟨ho, hd⟩
        rcases List.mem_append.mp hd with hd | hd
        · exact ⟨ho, hd⟩
        · rcases List.mem_singleton.mp hd with rfl
          exact absurd ⟨rfl, ho⟩ (hall a hm)
    · rcases List.mem_singleton.mp hm with rfl
      constructor
      · intro _
        exact ⟨rfl, List.mem_append_right _ (List.mem_singleton_self _)⟩
      · intro _
        show hash ∈ addMember [] hash
        exact mem_addMember_self _ _

theorem labelsOf_cons_none {f : Feature} (fs : List Feature) (hft : f.text = none) :
    labelsOf (f :: fs) = labelsOf fs := by
  unfold labelsOf
  rw [List.filterMap_cons, hft]

theorem labelsOf_cons_some_numeric {f : Feature} {t : String} (fs : List Feature)
    (hft : f.text = some t) (hnum : pyIsNumeric t = true) :
    labelsOf (f :: fs) = labelsOf fs := by
  unfold labelsOf
  rw [List.filterMap_cons, hft]
  dsimp only
  rw [List.filter_cons_of_neg]
  simp [hnum]

theorem labelsOf_cons_some {f : Feature} {t : String} (fs : List Feature)
    (hft : f.text = some t) (hnum : pyIsNumeric t = false) :
    labelsOf (f :: fs) = t :: labelsOf fs := by
  unfold labelsOf
  rw [List.filterMap_cons, hft]
  dsimp only
  rw [List.filter_cons_of_pos]
  simp [hnum]

theorem placeInv_congr {hash : String} {o : Nat} {places : List AlbumPlace}
    {d₁ d₂ : List String} (h : placeInv hash o places d₁)
    (hiff : ∀ s, s ∈ d₁ ↔ s ∈ d₂) : placeInv hash o places d₂ := by
  intro a ha
  rw [h a ha]
  constructor
  · rintro ⟨ho, hd⟩; exact ⟨ho, (hiff _).mp hd⟩
  · rintro ⟨ho, hd⟩; exact ⟨ho, (hiff _).mpr hd⟩

theorem placeLoop_inv (hash : String) (o : Nat) (n : Nat) :
    ∀ (fs : List Feature) (i : Nat) (places : List AlbumPlace) (done : List String),
      PlacesWF places → placeInv hash o places done →
      PlacesWF (placeLoop hash o n i fs places) ∧
      placeInv hash o (placeLoop hash o n i fs places) (done ++ labelsOf fs) := by
  intro fs
  induction fs with
  | nil =>
    intro i places done hWF hinv
    refine ⟨hWF, ?_⟩
    unfold labelsOf
    simpa using hinv
  | cons f fs ih =>
    intro i places done hWF hinv
    unfold placeLoop
    cases hft : f.text with
    | none =>
      dsimp only
      obtain ⟨h1, h2⟩ := ih (i + 1) places done hWF hinv
      rw [labelsOf_cons_none fs hft]
      exact ⟨h1, h2⟩
    | some t =>
      dsimp only
      by_cases hnum : pyIsNumeric t = true
      · rw [if_pos hnum]
        obtain ⟨h1, h2⟩ := ih (i + 1) places done hWF hinv
        rw [labelsOf_cons_some_numeric fs hft hnum]
        exact ⟨h1, h2⟩
      · have hnum' : pyIsNumeric t = false := Bool.eq_false_iff.mpr hnum
        rw [if_neg hnum]
        have hWF' := addPhotoToPlace_wf hash o ((n : Int) - i) t places hWF
        have hinv' := addPhotoToPlace_inv hash o ((n : Int) - i) t done places hWF hinv
        obtain ⟨h1, h2⟩ := ih (i + 1) _ (done ++ [t]) hWF' hinv'
        rw [labelsOf_cons_some fs hft hnum']
        refine ⟨h1, placeInv_congr h2 ?_⟩
        intro s
        simp [or_assoc]

theorem removal_map_not_mem (hash : String) (places : List AlbumPlace) :
    ∀ a ∈ places.map (fun a =>
      if hash ∈ a.photos then { a with photos := removeMember a.photos hash } else a),
      hash ∉ a.photos := by
  intro a ha
  obtain ⟨b, hb, rfl⟩ := List.mem_map.mp ha
  by_cases hm : hash ∈ b.photos
  · rw [if_pos hm]
    show hash ∉ removeMember b.photos hash
    exact not_mem_removeMember _ _
  · rw [if_neg hm]
    exact hm

theorem removal_map_wf (hash : String) (places : List AlbumPlace)
    (h : PlacesWF places) :
    PlacesWF (places.map (fun a =>
      if hash ∈ a.photos then { a with photos := removeMember a.photos hash } else a)) := by
  refine List.Pairwise.map _ ?_ h
  intro a b hab
  unfold placeKeyDistinct at hab ⊢
  rcases hab with h' | h'
  · refine Or.inl ?_
    split <;> split <;> exact h'
  · refine Or.inr ?_
    split <;> split <;> exact h'

theorem geolocateMapbox_success (p : Photo) (places : List AlbumPlace)
    (newLat newLon : Option Rat) (r : MapboxRes) (fs : List Feature)
    (h1 : truthyCoord newLat = true) (h2 : truthyCoord newLon = true)
    (hguard : (p.exif_gps_lat == some (newLat.getD 0)
        && p.exif_gps_lon == some (newLon.getD 0)
        && (findAlbumPlaces p.image_hash places).length != 0
        && truthyGeo p.geolocation_json) = false)
    (hfeat : r.features = some fs) :
    (geolocateMapbox newLat newLon (.ok (some r)) p places).2 =
      placeLoop p.image_hash p.owner fs.length 0 fs
        (places.map (fun a =>
          if p.image_hash ∈ a.photos then
            { a with photos := removeMember a.photos p.image_hash }
          else a)) := by
  unfold geolocateMapbox
  dsimp only
  rw [if_neg (by rw [h1, h2]; decide)]
  rw [if_neg (by rw [hguard]; decide)]
  have hnk : (r.numKeys == 0) = false := by
    unfold MapboxRes.numKeys
    rw [hfeat]
    simp
  rw [if_neg (by rw [hnk]; decide)]
  have hfn : r.features.isNone = false := by rw [hfeat]; rfl
  rw [if_neg (by rw [hfn]; decide)]
  rw [hfeat]
  rfl

/-- C1: when the stored coordinates change and the reverse-geocode call
succeeds with a well-formed result, the stage performs a complete swap:
afterwards the photo is a member of a place album exactly when that album
belongs to the photo's owner and is keyed by one of the non-numeric feature
labels of the new result — every stale membership is removed in the same
pass. -/
theorem claim_C1_place_membership_swap (p : Photo) (places : List AlbumPlace)
    (newLat newLon : Option Rat) (r : MapboxRes) (fs : List Feature)
    (hWF : PlacesWF places)
    (h1 : truthyCoord newLat = true) (h2 : truthyCoord newLon = true)
    (hchange : p.exif_gps_lat ≠ some (newLat.getD 0) ∨ p.exif_gps_lon ≠ some (newLon.getD 0))
    (hfeat : r.features = some fs)
    (_hwf : ∀ f ∈ fs, f.text.isSome = true) :
    ∀ a ∈ (geolocateMapbox newLat newLon (.ok (some r)) p places).2,
      (p.image_hash ∈ a.photos ↔ (a.owner = p.owner ∧ a.title ∈ labelsOf fs)) := by
  have hguard : (p.exif_gps_lat == some (newLat.getD 0)
      && p.exif_gps_lon == some (newLon.getD 0)
      && (findAlbumPlaces p.image_hash places).length != 0
      && truthyGeo p.geolocation_json) = false := by
    rcases hchange with h | h
    · have hb : (p.exif_gps_lat == some (newLat.getD 0)) = false := by
        rw [Bool.eq_false_iff]
        intro hbe
        exact h (beq_iff_eq.mp hbe)
      rw [hb]
      rfl
    · have hb : (p.exif_gps_lon == some (newLon.getD 0)) = false := by
        rw [Bool.eq_false_iff]
        intro hbe
        exact h (beq_iff_eq.mp hbe)
      rw [hb]
      simp
  rw [geolocateMapbox_success p places newLat newLon r fs h1 h2 hguard hfeat]
  have hWFm := removal_map_wf p.image_hash places hWF
  have hinvm : placeInv p.image_hash p.owner
      (places.map (fun a =>
        if p.image_hash ∈ a.photos then
          { a with photos := removeMember a.photos p.image_hash }
        else a)) [] := by
    intro a ha
    simp only [List.not_mem_nil, and_false, iff_false]
    exact removal_map_not_mem p.image_hash places a ha
  obtain ⟨h1', h2'⟩ := placeLoop_inv p.image_hash p.owner fs.length fs 0 _ [] hWFm hinvm
  rw [List.nil_append] at h2'
  exact h2'

/-- Witness for C1: the photo starts in the stale "Berlin" album; after the
swap it is out of "Berlin" and in "Paris", exactly as the membership
characterization states at those two albums. -/
theorem claim_C1_witness :
    ((basePhoto.image_hash ∈ berlinAfter.photos ↔
      (berlinAfter.owner = basePhoto.owner ∧ berlinAfter.title ∈ labelsOf fsEPF)) ∧
     (basePhoto.image_hash ∈ parisAfter.photos ↔
      (parisAfter.owner = basePhoto.owner ∧ parisAfter.title ∈ labelsOf fsEPF))) :=
  ⟨claim_C1_place_membership_swap basePhoto [berlinAlbum] (some 1) (some 2) rEPF fsEPF
      (by unfold PlacesWF; exact List.pairwise_singleton _ _) (by decide) (by decide)
      (Or.inl (by decide)) rfl (by decide) berlinAfter (by decide),
   claim_C1_place_membership_swap basePhoto [berlinAlbum] (some 1) (some 2) rEPF fsEPF
      (by unfold PlacesWF; exact List.pairwise_singleton _ _) (by decide) (by decide)
      (Or.inl (by decide)) rfl (by decide) parisAfter (by decide)⟩

theorem placeLoop_cons (hash : String) (o : Nat) (n i : Nat) (f : Feature)
    (fs : List Feature) (S : List AlbumPlace) :
    placeLoop hash o n i (f :: fs) S =
      placeLoop hash o n (i + 1) fs
        (match f.text with
         | none => S
         | some t => if pyIsNumeric t then S
                     else addPhotoToPlace hash o ((n : Int) - i) t S) := rfl

theorem placeLoop_append (hash : String) (o : Nat) (n : Nat) :
    ∀ (xs ys : List Feature) (i : Nat) (S : List AlbumPlace),
      placeLoop hash o n i (xs ++ ys) S =
        placeLoop hash o n (i + xs.length) ys (placeLoop hash o n i xs S) := by
  intro xs
  induction xs with
  | nil =>
    intro ys i S
    rw [List.nil_append, List.length_nil, Nat.add_zero]
    rfl
  | cons f xs ih =>
    intro ys i S
    rw [List.cons_append, placeLoop_cons, placeLoop_cons, ih, List.length_cons,
      Nat.add_assoc, Nat.add_comm 1 xs.length]

theorem addPhotoToPlace_target (hash : String) (o : Nat) (lvl : Int) (t : String)
    (done : List String) (places : List AlbumPlace)
    (hinv : placeInv hash o places done) (hnd : t ∉ done) :
    ∃ a ∈ addPhotoToPlace hash o lvl t places,
      a.title = t ∧ a.owner = o ∧ a.geolocation_level = some lvl ∧ hash ∈ a.photos := by
  unfold addPhotoToPlace
  split
  · rename_i hany
    obtain ⟨b, hb, hpb, hfb⟩ := updateFirst_exists _ _ places hany
    have hbk : b.title = t ∧ b.owner = o := by
      unfold placeKeyed at hpb
      simp only [Bool.and_eq_true, beq_iff_eq] at hpb
      exact hpb
    have hnm : hash ∉ b.photos := by
      intro hm
      have := (hinv b hb).mp hm
      exact hnd (hbk.1 ▸ this.2)
    refine ⟨_, hfb, ?_, ?_, ?_, ?_⟩
    · show (if hash ∈ b.photos then b else { b with geolocation_level := some lvl }).title = t
      rw [if_neg hnm]
      exact hbk.1
    · show (if hash ∈ b.photos then b else { b with geolocation_level := some lvl }).owner = o
      rw [if_neg hnm]
      exact hbk.2
    · show (if hash ∈ b.photos then b
            else { b with geolocation_level := some lvl }).geolocation_level = some lvl
      rw [if_neg hnm]
    · show hash ∈ addMember _ hash
      exact mem_addMember_self _ _
  · refine ⟨_, List.mem_append_right _ (List.mem_singleton_self _), rfl, rfl, rfl, ?_⟩
    show hash ∈ addMember [] hash
    exact mem_addMember_self _ _

theorem placeLoop_target (hash : String) (o : Nat) (n : Nat) (t : String) (L : Int) :
    ∀ (fs : List Feature) (i : Nat) (S : List AlbumPlace) (done : List String),
      PlacesWF S → placeInv hash o S done → t ∈ done →
      (∃ a ∈ S, a.title = t ∧ a.owner = o ∧ a.geolocation_level = some L ∧ hash ∈ a.photos) →
      ∃ a ∈ placeLoop hash o n i fs S,
        a.title = t ∧ a.owner = o ∧ a.geolocation_level = some L ∧ hash ∈ a.photos := by
  intro fs
  induction fs with
  | nil =>
    intro i S done _ _ _ h
    exact h
  | cons f fs ih =>
    intro i S done hWF hinv hdone htarget
    rw [placeLoop_cons]
    cases hft : f.text with
    | none => exact ih (i + 1) S done hWF hinv hdone htarget
    | some u =>
      dsimp only
      by_cases hnum : pyIsNumeric u = true
      · rw [if_pos hnum]
        exact ih (i + 1) S done hWF hinv hdone htarget
      · rw [if_neg hnum]
        have hWF' := addPhotoToPlace_wf hash o ((n : Int) - i) u S hWF
        have hinv' := addPhotoToPlace_inv hash o ((n : Int) - i) u done S hWF hinv
        refine ih (i + 1) _ (done ++ [u]) hWF' hinv' (List.mem_append_left _ hdone) ?_
        obtain ⟨a, ha, ht1, ht2, ht3, ht4⟩ := htarget
        by_cases hu : u = t
        · subst hu
          have heq : addPhotoToPlace hash o ((n : Int) - i) u S = S := by
            unfold addPhotoToPlace
            rw [if_pos (List.any_eq_true.mpr ⟨a, ha, by
              unfold placeKeyed
              simp only [Bool.and_eq_true, beq_iff_eq]
              exact ⟨ht1, ht2⟩⟩)]
            apply updateFirst_eq_self
            intro b hb hpb
            have hbk : b.title = u ∧ b.owner = o := by
              unfold placeKeyed at hpb
              simp only [Bool.and_eq_true, beq_iff_eq] at hpb
              exact hpb
            have hbm : hash ∈ b.photos := by
              rw [hinv b hb]
              exact ⟨hbk.2, hbk.1 ▸ hdone⟩
            dsimp only
            rw [if_pos hbm]
            have hadd : addMember b.photos hash = b.photos := by
              unfold addMember
              rw [if_pos hbm]
            rw [hadd]
          rw [heq]
          exact ⟨a, ha, ht1, ht2, ht3, ht4⟩
        · have hpa : placeKeyed u o a = false := by
            unfold placeKeyed
            have hti : (a.title == u) = false := by
              rw [Bool.eq_false_iff]
              intro hbe
              exact hu ((beq_iff_eq.mp hbe).symm.trans ht1)
            rw [hti]
            rfl
          unfold addPhotoToPlace
          split
          · exact ⟨a, mem_updateFirst_of_not_pred _ _ hpa S ha, ht1, ht2, ht3, ht4⟩
          · exact ⟨a, List.mem_append_left _ ha, ht1, ht2, ht3, ht4⟩

theorem placeLoop_sets_level (hash : String) (o : Nat) (n : Nat) (t : String)
    (xs ys : List Feature) (g : Feature) (i : Nat) (S : List AlbumPlace)
    (done : List String)
    (hWF : PlacesWF S) (hinv : placeInv hash o S done)
    (hgt : g.text = some t) (hnum : pyIsNumeric t = false)
    (hnd : t ∉ done) (hnx : t ∉ labelsOf xs) :
    ∃ a ∈ placeLoop hash o n i (xs ++ g :: ys) S,
      a.title = t ∧ a.owner = o ∧
      a.geolocation_level = some ((n : Int) - (i + xs.length)) ∧ hash ∈ a.photos := by
  rw [placeLoop_append, placeLoop_cons, hgt]
  dsimp only
  rw [if_neg (by rw [hnum]; exact Bool.false_ne_true)]
  obtain ⟨hWF_i, hinv_i⟩ := placeLoop_inv hash o n xs i S done hWF hinv
  have hnd' : t ∉ done ++ labelsOf xs := by
    intro hm
    rcases List.mem_append.mp hm with h | h
    · exact hnd h
    · exact hnx h
  have htarget := addPhotoToPlace_target hash o ((n : Int) - (i + xs.length)) t
    (done ++ labelsOf xs) _ hinv_i hnd'
  exact placeLoop_target hash o n t _ ys (i + xs.length + 1) _ (done ++ labelsOf xs ++ [t])
    (addPhotoToPlace_wf hash o _ t _ hWF_i)
    (addPhotoToPlace_inv hash o _ t _ _ hWF_i hinv_i)
    (List.mem_append_right _ (List.mem_singleton_self _)) htarget

/-- C5: on every successful geolocation run that proceeds past the
short-circuit guard (new coordinates truthy, and not all of: coordinates
unchanged, an existing place membership, and a cached truthy
`geolocation_json`), the feature at position `i` with a non-numeric label
`t` not carried by any earlier feature yields a membership in the owner's
place album keyed `t` whose hierarchy level is `(count of features) - i`;
a later duplicate feature re-adding the photo does not overwrite the
recorded level. -/
theorem claim_C5_place_hierarchy_levels (p : Photo) (places : List AlbumPlace)
    (newLat newLon : Option Rat) (r : MapboxRes) (fs : List Feature)
    (i : Nat) (t : String)
    (hWF : PlacesWF places)
    (h1 : truthyCoord newLat = true) (h2 : truthyCoord newLon = true)
    (hguard : (p.exif_gps_lat == some (newLat.getD 0)
        && p.exif_gps_lon == some (newLon.getD 0)
        && (findAlbumPlaces p.image_hash places).length != 0
        && truthyGeo p.geolocation_json) = false)
    (hfeat : r.features = some fs)
    (hi : i < fs.length)
    (ht : (fs.get ⟨i, hi⟩).text = some t)
    (hnum : pyIsNumeric t = false)
    (hfirst : t ∉ labelsOf (fs.take i)) :
    ∃ a ∈ (geolocateMapbox newLat newLon (.ok (some r)) p places).2,
      a.title = t ∧ a.owner = p.owner ∧
      a.geolocation_level = some ((fs.length : Int) - i) ∧ p.image_hash ∈ a.photos := by
  rw [geolocateMapbox_success p places newLat newLon r fs h1 h2 hguard hfeat]
  have hWFm := removal_map_wf p.image_hash places hWF
  have hinvm : placeInv p.image_hash p.owner
      (places.map (fun a =>
        if p.image_hash ∈ a.photos then
          { a with photos := removeMember a.photos p.image_hash }
        else a)) [] := by
    intro a ha
    simp only [List.not_mem_nil, and_false, iff_false]
    exact removal_map_not_mem p.image_hash places a ha
  have hlem := placeLoop_sets_level p.image_hash p.owner fs.length t
    (fs.take i) (fs.drop (i + 1)) (fs.get ⟨i, hi⟩) 0 _ [] hWFm hinvm ht hnum
    (List.not_mem_nil t) hfirst
  have hsplit : fs.take i ++ fs.get ⟨i, hi⟩ :: fs.drop (i + 1) = fs := by
    have := List.take_append_drop i fs
    rw [List.drop_eq_getElem_cons hi] at this
    exact this
  rw [hsplit] at hlem
  have hlen : (fs.take i).length = i := List.length_take_of_le (Nat.le_of_lt hi)
  rw [hlen] at hlem
  simp only [Nat.cast_zero, zero_add] at hlem
  exact hlem

/-- Witness for C5: the Paris scenario — features Eiffel Tower, Paris,
France, finest to coarsest — puts the photo in the "Paris" album with level
`3 - 1 = 2`; the run proceeds even though the stored coordinates are
unchanged, because no geolocation result is cached yet. -/
theorem claim_C5_witness :
    ∃ a ∈ (geolocateMapbox (some 1) (some 2) (.ok (some rEPF)) c5photo [berlinAlbum]).2,
      a.title = "Paris" ∧ a.owner = c5photo.owner ∧
      a.geolocation_level = some ((fsEPF.length : Int) - 1) ∧
      c5photo.image_hash ∈ a.photos :=
  claim_C5_place_hierarchy_levels c5photo [berlinAlbum] (some 1) (some 2) rEPF fsEPF 1 "Paris"
    (by unfold PlacesWF; exact List.pairwise_singleton _ _) (by decide) (by decide)
    (by decide) rfl (by decide) (by decide) (by decide) (by decide)

theorem closeTo_mkFace (hash : String) (pid : Nat) (e : List Int) (b₁ b₂ : Box) :
    closeTo (mkFace hash pid e b₁) b₂ = boxNear b₁ b₂ := rfl

theorem zip_mem_right {α β : Type} :
    ∀ (xs : List α) (ys : List β), ys.length ≤ xs.length →
      ∀ y ∈ ys, ∃ x, (x, y) ∈ xs.zip ys := by
  intro xs
  induction xs with
  | nil =>
    intro ys h y hy
    cases ys with
    | nil => exact absurd hy (List.not_mem_nil y)
    | cons z zs => simp at h
  | cons x xs ih =>
    intro ys h y hy
    cases ys with
    | nil => exact absurd hy (List.not_mem_nil y)
    | cons z zs =>
      rcases List.mem_cons.mp hy with rfl | hm
      · exact ⟨x, List.mem_cons_self _ _⟩
      · obtain ⟨x', hx'⟩ := ih zs (by simpa using h) y hm
        exact ⟨x', List.mem_cons_of_mem _ hx'⟩

theorem forall₂_exists_left {R : Box → Box → Prop} :
    ∀ {d₁ d₂ : List Box}, List.Forall₂ R d₁ d₂ → ∀ b ∈ d₂, ∃ a ∈ d₁, R a b := by
  intro d₁ d₂ h
  induction h with
  | nil => intro b hb; exact absurd hb (List.not_mem_nil b)
  | cons hr _ ih =>
    intro b hb
    rcases List.mem_cons.mp hb with rfl | hm
    · exact ⟨_, List.mem_cons_self _ _, hr⟩
    · obtain ⟨a, ha, har⟩ := ih b hm
      exact ⟨a, List.mem_cons_of_mem _ ha, har⟩

theorem faceLoop_all_new (hash : String) (pid : Nat) :
    ∀ (pairs : List (List Int × Box)) (faces : List Face),
      (∀ pr ∈ pairs, ∀ f ∈ faces, (f.photo == hash && closeTo f pr.2) = false) →
      (pairs.map Prod.snd).Pairwise (fun b₁ b₂ => boxNear b₁ b₂ = false) →
      faceLoop hash pid pairs faces =
        faces ++ pairs.map (fun pr => mkFace hash pid pr.1 pr.2) := by
  intro pairs
  induction pairs with
  | nil =>
    intro faces _ _
    show faces = faces ++ []
    rw [List.append_nil]
  | cons pr rest ih =>
    intro faces hnone hpw
    obtain ⟨e, b⟩ := pr
    unfold faceLoop
    dsimp only
    have hfilter : (faces.filter (fun f => f.photo == hash && closeTo f b)) = [] := by
      rw [List.filter_eq_nil_iff]
      intro f hf
      rw [hnone (e, b) (List.mem_cons_self _ _) f hf]
      exact Bool.false_ne_true
    rw [hfilter]
    rw [if_neg (by decide)]
    show faceLoop hash pid rest (faces ++ [mkFace hash pid e b]) = _
    rw [ih (faces ++ [mkFace hash pid e b]) ?_ ?_]
    · rw [List.append_assoc]
      rfl
    · intro pr' hpr' f hf
      rcases List.mem_append.mp hf with h | h
      · exact hnone pr' (List.mem_cons_of_mem _ hpr') f h
      · rcases List.mem_singleton.mp h with rfl
        have hb := (List.pairwise_cons.mp hpw).1 pr'.2 (List.mem_map_of_mem _ hpr')
        show ((mkFace hash pid e b).photo == hash && closeTo (mkFace hash pid e b) pr'.2) = false
        rw [closeTo_mkFace, hb, Bool.and_false]
    · exact (List.pairwise_cons.mp hpw).2

theorem faceLoop_all_skip (hash : String) (pid : Nat) :
    ∀ (pairs : List (List Int × Box)) (faces : List Face),
      (∀ pr ∈ pairs, ∃ f ∈ faces, (f.photo == hash && closeTo f pr.2) = true) →
      faceLoop hash pid pairs faces = faces := by
  intro pairs
  induction pairs with
  | nil => intro faces _; rfl
  | cons pr rest ih =>
    intro faces hall
    obtain ⟨e, b⟩ := pr
    unfold faceLoop
    dsimp only
    obtain ⟨f, hf, hpf⟩ := hall (e, b) (List.mem_cons_self _ _)
    have hne : (faces.filter (fun f => f.photo == hash && closeTo f b)) ≠ [] := by
      intro hnil
      have hmem : f ∈ faces.filter (fun f => f.photo == hash && closeTo f b) :=
        List.mem_filter.mpr ⟨hf, hpf⟩
      rw [hnil] at hmem
      exact List.not_mem_nil f hmem
    rw [if_pos ?_]
    · exact ih faces (fun pr' hpr' => hall pr' (List.mem_cons_of_mem _ hpr'))
    · rw [bne_iff_ne]
      intro hzero
      exact hne (List.length_eq_zero.mp hzero)

theorem extractFaces_run_eq (p : Photo) (persons : List Person) (faces : List Face)
    (bs : List Box) (encs : List (List Int)) (hbs : 0 < bs.length) :
    (extractFaces (.ok bs) (.ok encs) p persons faces).2.2 =
      faceLoop p.image_hash (unknownIdAfter persons) (encs.zip bs) faces := by
  unfold extractFaces unknownIdAfter
  dsimp only
  by_cases hq : ((persons.filter (fun q => q.name == "unknown")).length == 0) = true
  · rw [if_pos hq, if_pos hq, if_pos hbs]
  · rw [if_neg hq, if_neg hq, if_pos hbs]

theorem extractFaces_nil_eq (p : Photo) (persons : List Person) (faces : List Face)
    (encs : List (List Int)) :
    (extractFaces (.ok []) (.ok encs) p persons faces).2.2 = faces := by
  unfold extractFaces
  dsimp only
  rw [if_neg (by decide)]

/-- C3 counterexample: starting from no faces, a first run detects boxes
`(0,0,0,0)` and `(2,2,2,2)` — the second is deduplicated against the first,
leaving one stored Face.  A second run on the unchanged thumbnail with
per-coordinate jitter of at most 2 — boxes `(0,0,0,0)` and `(4,4,4,4)` —
inserts a second Face, because `(4,4,4,4)` is 4 pixels away from the only
stored box: the Face count changes from 1 to 2. -/
theorem claim_C3_counterexample :
    boxNear { top := 0, right := 0, bottom := 0, left := 0 }
      { top := 0, right := 0, bottom := 0, left := 0 } = true ∧
    boxNear { top := 2, right := 2, bottom := 2, left := 2 }
      { top := 4, right := 4, bottom := 4, left := 4 } = true ∧
    c3run1.2.2.length = 1 ∧ c3run2.2.2.length = 2 := by decide

/-- C3 amended: the dedup skip itself holds (a detection within ±2 of an
existing Face of the same photo is dropped), and re-running the stage on an
unchanged thumbnail with ≤2px per-coordinate jitter leaves the Face store
unchanged *provided* the first run started with no faces for the photo and
its detections were pairwise farther than the ±2 tolerance apart (so each of
them was actually stored). -/
theorem claim_C3_amended_face_dedup (p : Photo) (persons : List Person) (faces : List Face)
    (d1 d2 : List Box) (e1 e2 : List (List Int))
    (hclean : ∀ f ∈ faces, f.photo ≠ p.image_hash)
    (hsep : d1.Pairwise (fun b₁ b₂ => boxNear b₁ b₂ = false))
    (hlen1 : e1.length = d1.length) (hlen2 : e2.length = d2.length)
    (hjit : List.Forall₂ (fun b₁ b₂ => boxNear b₁ b₂ = true) d1 d2) :
    (extractFaces (.ok d2) (.ok e2) p
        (extractFaces (.ok d1) (.ok e1) p persons faces).2.1
        (extractFaces (.ok d1) (.ok e1) p persons faces).2.2).2.2 =
      (extractFaces (.ok d1) (.ok e1) p persons faces).2.2 := by
  cases d1 with
  | nil =>
    cases hjit
    rw [extractFaces_nil_eq]
  | cons b1 bs1 =>
    cases d2 with
    | nil => cases hjit
    | cons b2 bs2 =>
      rw [extractFaces_run_eq _ _ _ _ _ (by rw [List.length_cons]; exact Nat.succ_pos _),
        extractFaces_run_eq _ _ _ _ _ (by rw [List.length_cons]; exact Nat.succ_pos _)]
      have hrun1 : faceLoop p.image_hash (unknownIdAfter persons) (e1.zip (b1 :: bs1)) faces =
          faces ++ (e1.zip (b1 :: bs1)).map
            (fun pr => mkFace p.image_hash (unknownIdAfter persons) pr.1 pr.2) := by
        apply faceLoop_all_new
        · intro pr hpr f hf
          have hb : (f.photo == p.image_hash) = false := by
            rw [Bool.eq_false_iff]
            intro hbe
            exact hclean f hf (beq_iff_eq.mp hbe)
          rw [hb, Bool.false_and]
        · rw [List.map_snd_zip e1 (b1 :: bs1) (le_of_eq hlen1.symm)]
          exact hsep
      rw [hrun1]
      apply faceLoop_all_skip
      intro pr hpr
      have hsnd : pr.2 ∈ (b2 :: bs2) := by
        have hm := List.mem_map_of_mem Prod.snd hpr
        rw [List.map_snd_zip e2 (b2 :: bs2) (le_of_eq hlen2.symm)] at hm
        exact hm
      obtain ⟨a, ha, hnear⟩ := forall₂_exists_left hjit pr.2 hsnd
      obtain ⟨e, he⟩ := zip_mem_right e1 (b1 :: bs1) (le_of_eq hlen1.symm) a ha
      refine ⟨mkFace p.image_hash (unknownIdAfter persons) e a,
        List.mem_append_right _ ?_, ?_⟩
      · exact List.mem_map_of_mem _ he
      · show ((mkFace p.image_hash (unknownIdAfter persons) e a).photo == p.image_hash &&
          closeTo (mkFace p.image_hash (unknownIdAfter persons) e a) pr.2) = true
        rw [closeTo_mkFace, hnear, Bool.and_true]
        exact beq_self_eq_true _

/-- Witness for C3 amended: two well-separated detections, then a jittered
re-run — the Face store is unchanged by the second run. -/
theorem claim_C3_amended_witness :
    (extractFaces (.ok [{ top := 1, right := 1, bottom := 1, left := 1 },
                        { top := 12, right := 12, bottom := 12, left := 12 }])
        (.ok [[3], [4]]) basePhoto
        (extractFaces (.ok [{ top := 0, right := 0, bottom := 0, left := 0 },
                            { top := 10, right := 10, bottom := 10, left := 10 }])
          (.ok [[1], [2]]) basePhoto [] []).2.1
        (extractFaces (.ok [{ top := 0, right := 0, bottom := 0, left := 0 },
                            { top := 10, right := 10, bottom := 10, left := 10 }])
          (.ok [[1], [2]]) basePhoto [] []).2.2).2.2 =
      (extractFaces (.ok [{ top := 0, right := 0, bottom := 0, left := 0 },
                          { top := 10, right := 10, bottom := 10, left := 10 }])
        (.ok [[1], [2]]) basePhoto [] []).2.2 :=
  claim_C3_amended_face_dedup basePhoto [] []
    [{ top := 0, right := 0, bottom := 0, left := 0 },
     { top := 10, right := 10, bottom := 10, left := 10 }]
    [{ top := 1, right := 1, bottom := 1, left := 1 },
     { top := 12, right := 12, bottom := 12, left := 12 }]
    [[1], [2]] [[3], [4]]
    (fun f hf => absurd hf (List.not_mem_nil f))
    (by decide)
    rfl rfl
    (List.Forall₂.cons (by decide) (List.Forall₂.cons (by decide) List.Forall₂.nil))

end LibrePhotos
